import Mathlib

/-!
A verification development for the GDB Remote Serial Protocol client in
`src/gdbserver/protocol.c` and `src/gdbserver/gdbserver.c`.

The C functions are shallowly embedded as executable Lean definitions:
payloads are `List Char` (NUL-terminated C strings without the terminator),
raw transport bytes are `List Nat`, machine integers are `Nat`/`Int` with
explicit reductions modulo `2^64` / `2^32` where the C types can overflow.
-/

set_option autoImplicit false

namespace Gdb

/-! ## Hex codec (`protocol.c`, `hex_nibble` / `gdb_decode_*`) -/

/-- Table `hex_nibble` on a raw byte value: the 256-entry table maps `'0'..'9'`,
`'A'..'F'`, `'a'..'f'` to `0..15` and everything else to `UINT8_MAX`. -/
def hexNibbleN (c : Nat) : Nat :=
  if 48 ≤ c ∧ c ≤ 57 then c - 48
  else if 65 ≤ c ∧ c ≤ 70 then c - 65 + 10
  else if 97 ≤ c ∧ c ≤ 102 then c - 97 + 10
  else 255

/-- Function `hex_nibble` applied to a character of a payload string. -/
def hex_nibble (c : Char) : Nat := hexNibbleN c.toNat

/-- Is `c` a valid hex digit (i.e. `hex_nibble` is a real nibble)? -/
def isHexDigit (c : Char) : Bool := hex_nibble c < 16

/-- Decoder `gdb_decode_hex(msb, lsb)`: a byte, or `UINT16_MAX` on any invalid nibble. -/
def gdb_decode_hex (msb lsb : Nat) : Nat :=
  if 16 ≤ hexNibbleN msb ∨ 16 ≤ hexNibbleN lsb then 65535
  else 16 * hexNibbleN msb + hexNibbleN lsb

/-- Accumulator loop shared by `gdb_decode_hex_n` / `gdb_decode_hex_str`:
`value = 16 * value + nibble`, on a C `uint64_t`, stopping at the first
non-hex character or when the counter runs out. -/
def decodeHexGo : Nat → List Char → Nat → Nat
  | 0, _, v => v
  | _ + 1, [], v => v
  | n + 1, c :: cs, v =>
    if 16 ≤ hex_nibble c then v
    else decodeHexGo n cs ((16 * v + hex_nibble c) % 18446744073709551616)

/-- Decoder `gdb_decode_hex_n(bytes, n)`: parse up to `n` nibbles, stop at first
non-hex. -/
def gdb_decode_hex_n (s : List Char) (n : Nat) : Nat := decodeHexGo n s 0

/-- Decoder `gdb_decode_hex_str(bytes)`: like `gdb_decode_hex_n` but terminated by
the end of the string (the NUL terminator, i.e. the string's length bounds
the loop). -/
def gdb_decode_hex_str (s : List Char) : Nat := decodeHexGo s.length s 0

/-- The exact (non-overflowing) value of a list of hex digits, used to state
theorems about the decoders. -/
def hexVal (s : List Char) : Nat := s.foldl (fun v c => 16 * v + hex_nibble c) 0

/-- Decoder `gdb_decode_hex_buf(bytes, n, out)`: require even length, decode hex
pairs into bytes, `none` on any invalid nibble (C returns `-1`). -/
def gdb_decode_hex_buf : List Char → Option (List Nat)
  | [] => some []
  | [_] => none
  | a :: b :: rest =>
    let byte := gdb_decode_hex a.toNat b.toNat
    if 255 < byte then none
    else match gdb_decode_hex_buf rest with
      | none => none
      | some out => some (byte :: out)

/-- C `(int)` conversion of a `uint64_t` value (wrap to 32-bit two's
complement, as on the reference platform). -/
def toInt32 (v : Nat) : Int :=
  let m := v % 4294967296
  if m < 2147483648 then (m : Int) else (m : Int) - 4294967296

/-! ## Stop replies (`gdbserver.c`, `enum gdb_stop` / `struct gdb_stop_reply`) -/

/-- Embedding of `enum gdb_stop`. -/
inductive GdbStop where
  | unknown        -- O or F or anything else
  | error          -- E
  | signal         -- S or T
  | exited         -- W
  | terminated     -- X
  | trap           -- signal 05 with no recognized stop reason
  | syscall_entry
  | syscall_return
  deriving DecidableEq, Repr

/-- The parsed part of `struct gdb_stop_reply` (`reply`/`size` are the raw
payload and its length, passed around separately). -/
structure GdbStopReply where
  type : GdbStop
  code : Int
  pid : Int
  tid : Int
  deriving DecidableEq, Repr

/-- The `stop` initializer in `gdb_recv_stop`. -/
def initStop : GdbStopReply := ⟨GdbStop.unknown, -1, -1, -1⟩

/-! `strtok_r(info, ";", ...)` tokenization: `;`-separated tokens, empty
tokens skipped. -/

/-- Accumulating splitter: `splitSemisAux s acc` tokenizes `acc ++ s`. -/
def splitSemisAux : List Char → List Char → List (List Char)
  | [], acc => if acc = [] then [] else [acc]
  | c :: rest, acc =>
    if c = ';' then
      if acc = [] then splitSemisAux rest []
      else acc :: splitSemisAux rest []
    else splitSemisAux rest (acc ++ [c])

/-- Split a string on `';'`, dropping empty tokens (`strtok_r` semantics). -/
def splitSemis (s : List Char) : List (List Char) := splitSemisAux s []

/-- Split one `n:r` token: `strtok(nr, ":")` (skip leading `':'`, take up
to the next `':'`) followed by `strtok(NULL, "")` (the nonempty remainder).
`none` models a NULL `n` or `r`, which `gdb_recv_signal` skips. -/
def pairOf (tok : List Char) : Option (List Char × List Char) :=
  let t := tok.dropWhile (· = ':')
  if t = [] then none
  else
    let n := t.takeWhile (· ≠ ':')
    let rest := t.dropWhile (· ≠ ':')
    if rest = [] then none
    else
      let r := rest.drop 1
      if r = [] then none else some (n, r)

/-- Parser `gdb_parse_thread(id, &pid, &tid)`: `pPID`, `pPID.TID`, or bare `TID`. -/
def gdb_parse_thread (id : List Char) : Int × Int :=
  if id.take 1 = ['p'] then
    let id' := id.drop 1
    let pid := toInt32 (gdb_decode_hex_str id')
    let dotTail := id'.dropWhile (· ≠ '.')  -- strchr(id, '.')
    if dotTail = [] then (pid, pid)         -- no '.', use the PID as TID
    else (pid, toInt32 (gdb_decode_hex_str (dotTail.drop 1)))
  else let tid := toInt32 (gdb_decode_hex_str id); (tid, tid)

/-- Constant `GDB_SIGNAL_TRAP` (spec §4.G: `SIGTRAP(5)`). -/
def GDB_SIGNAL_TRAP : Nat := 5

/-- One `n:r` pair of the loop body in `gdb_recv_signal`. -/
def processPair (st : GdbStopReply) (n r : List Char) : GdbStopReply :=
  if n = "thread".toList then
    let (p, t) := gdb_parse_thread r
    { st with pid := p, tid := t }
  else if n = "syscall_entry".toList then
    if st.type = GdbStop.trap then
      { st with type := GdbStop.syscall_entry,
                code := toInt32 (gdb_decode_hex_str r) }
    else st
  else if n = "syscall_return".toList then
    if st.type = GdbStop.trap then
      { st with type := GdbStop.syscall_return,
                code := toInt32 (gdb_decode_hex_str r) }
    else st
  else st

/-- Parser `gdb_recv_signal`: the signal number from the two hex digits after `S`/`T`,
`trap` for `05`/`00`, then fold over the `n:r` pairs of `reply + 3`. -/
def gdb_recv_signal (reply : List Char) (stop : GdbStopReply) : GdbStopReply :=
  let code := toInt32 (gdb_decode_hex_n (reply.drop 1) 2)
  let ty := if code = (GDB_SIGNAL_TRAP : Int) ∨ code = 0
            then GdbStop.trap else GdbStop.signal
  ((splitSemis (reply.drop 3)).filterMap pairOf).foldl
    (fun st p => processPair st p.1 p.2)
    { stop with code := code, type := ty }

/-- A `strstr`-style search: the suffix of `s` starting at the first
occurrence of `pat`, or `none`. -/
def findSub (pat : List Char) : List Char → Option (List Char)
  | [] => if pat = [] then some [] else none
  | c :: rest =>
    if pat.isPrefixOf (c :: rest) then some (c :: rest)
    else findSub pat rest

/-- Parser `gdb_recv_exit`: `W` exited / `X` terminated, exit code from the hex
after the first byte, optional `;process:<pid>` setting `pid = tid`. -/
def gdb_recv_exit (reply : List Char) (stop : GdbStopReply) : GdbStopReply :=
  let ty := if reply.take 1 = ['W'] then GdbStop.exited else GdbStop.terminated
  let st := { stop with type := ty,
                        code := toInt32 (gdb_decode_hex_str (reply.drop 1)) }
  match findSub ";process:".toList reply with
  | none => st
  | some suffixAt =>
    let p := toInt32 (gdb_decode_hex_str (suffixAt.drop 9))
    { st with pid := p, tid := p }

/-- The packet-dispatch part of `gdb_recv_stop` (lines 307-324): all good
packets are at least 3 bytes; dispatch on the first byte. -/
def gdb_recv_stop_pure (reply : List Char) : GdbStopReply :=
  if reply.length < 3 then initStop
  else if reply.take 1 = ['E'] then
    { initStop with type := GdbStop.error,
                    code := toInt32 (gdb_decode_hex_n (reply.drop 1) 2) }
  else if reply.take 1 = ['S'] ∨ reply.take 1 = ['T'] then
    gdb_recv_signal reply initStop
  else if reply.take 1 = ['W'] ∨ reply.take 1 = ['X'] then
    gdb_recv_exit reply initStop
  else initStop

/-! ## Notification queue (`protocol.c`, `push_notification` /
`pop_notification`)

The C queue is a growable array of `char*` slots, `NULL` marking a free
slot.  We model it as a `List (Option payload)`; array growth (initial
capacity 10, doubling when no free slot is found) only ever makes fresh
slots available past the occupied ones, so it is modeled by appending a
single fresh slot on demand. -/

abbrev NotifState := List (Option (List Char))

/-- The `strncmp(packet+3, "syscall", 7) == 0` filter guarding
`push_notification`. -/
def syscallNotif (p : List Char) : Bool :=
  (p.drop 3).take 7 == "syscall".toList

/-- Store a payload in the first free (`NULL`) slot, growing if full. -/
def setFirstNone : NotifState → List Char → NotifState
  | [], p => [some p]
  | none :: s, p => some p :: s
  | some q :: s, p => some q :: setFirstNone s p

/-- Producer `push_notification(packet, packet_size)`. -/
def push_notification (p : List Char) (s : NotifState) : NotifState :=
  if syscallNotif p then setFirstNone s p else s

/-- Consumer `pop_notification(&size)`: return the first non-`NULL` slot and clear
it; `none` when the queue is empty.  (The C size out-parameter is the
`strlen` of the payload, equal to its length for NUL-free payloads.) -/
def pop_notification : NotifState → Option (List Char) × NotifState
  | [] => (none, [])
  | none :: s =>
    let (r, s') := pop_notification s
    (r, none :: s')
  | some q :: s => (some q, none :: s)

/-- An interleaved sequence of queue operations. -/
inductive NotifOp where
  | push (p : List Char)
  | pop
  deriving DecidableEq, Repr

/-- Run a sequence of queue operations, collecting each pop's result. -/
def runNotifOps : List NotifOp → NotifState → NotifState × List (Option (List Char))
  | [], s => (s, [])
  | NotifOp.push p :: ops, s => runNotifOps ops (push_notification p s)
  | NotifOp.pop :: ops, s =>
    let (r, s') := pop_notification s
    let (sf, rs) := runNotifOps ops s'
    (sf, r :: rs)

/-- Perform `n` consecutive pops, collecting the results. -/
def popN : Nat → NotifState → List (Option (List Char)) × NotifState
  | 0, s => ([], s)
  | n + 1, s =>
    let (r, s') := pop_notification s
    let (rs, s'') := popN n s'
    (r :: rs, s'')

/-- Every occupied slot holds a payload that passed the `syscall` filter. -/
def goodState (s : NotifState) : Prop :=
  ∀ slot ∈ s, ∀ p, slot = some p → syscallNotif p = true

/-! ## `gdb_recv` (`protocol.c`, lines 544-573)

The calls to `recv_packet` are abstracted as consuming a stream of
`(payload, checksum_ok)` results; the queue threading, the one-shot
`T05syscall` redirection and the ack/nack retry loop are translated
directly. -/

/-- Model of `gdb_recv(conn, &size, want_stop)` over a packet stream.  Returns the
delivered payload, the queue afterwards and the unconsumed stream; `none`
models a blocking/failing transport (stream exhausted). -/
def gdb_recv_model (ack want_stop : Bool) :
    List (List Char × Bool) → NotifState →
    Option (List Char × NotifState × List (List Char × Bool))
  | [], _ => none
  | (reply, sumok) :: rest, q =>
    if ¬want_stop ∧ reply.take 10 = "T05syscall".toList then
      match rest with
      | [] => none
      | (r2, s2) :: rest2 =>
        let q' := push_notification reply q
        if ack then
          if s2 then some (r2, q', rest2)
          else gdb_recv_model ack want_stop rest2 q'
        else some (r2, q', rest2)
    else
      if ack then
        if sumok then some (reply, q, rest)
        else gdb_recv_model ack want_stop rest q
      else some (reply, q, rest)

/-! ## `recv_packet` (`protocol.c`, lines 418-542)

Raw ingress bytes are `List Nat` (byte values); the result is the payload,
the checksum verdict and the unconsumed input.  `none` models the fatal
`err`/`errx` exits (EOF mid-packet, unknown notification). -/

/-- The body of the `while ((c = fgetc_unlocked(in)) != EOF)` loop:
`acc` is the payload built so far (`reply[0..i)`), `sum` the running
mod-256 checksum, `esc` the pending `}`-escape flag. -/
def recvLoop : List Nat → List Nat → Nat → Bool → Option (List Nat × Bool × List Nat)
  | [], _, _, _ => none
  | c :: rest, acc, sum, esc =>
    if c = 36 then recvLoop rest [] 0 false            -- '$': start over
    else if c = 37 then                                -- '%': notification
      match rest with
      | s1 :: s2 :: s3 :: s4 :: s5 :: rest' =>
        -- five bytes that must read "Stop:"; they are added to the
        -- checksum after the reset (83+116+111+112+58 = 480 ≡ 224)
        if s1 = 83 ∧ s2 = 116 ∧ s3 = 111 ∧ s4 = 112 ∧ s5 = 58 then
          recvLoop rest' [] 224 false
        else none                                      -- errx: unknown
      | _ => none
    else if c = 35 then                                -- '#': end of packet
      match rest with
      | m :: l :: rest' => some (acc, decide (sum = gdb_decode_hex m l), rest')
      | [m] => some (acc, decide (sum = gdb_decode_hex m 255), [])
      | [] => some (acc, decide (sum = gdb_decode_hex 255 255), [])
    else if c = 125 then                               -- '}': escape next
      recvLoop rest acc ((sum + 125) % 256) true
    else if c = 42 ∧ acc ≠ [] then                     -- '*': RLE
      match rest with
      | [] =>
        -- EOF as count byte: pushed back (no-op), '*' falls through as a
        -- literal, and the next read hits EOF
        recvLoop [] (acc ++ [if esc then 42 ^^^ 32 else 42]) ((sum + 42) % 256) false
      | c2 :: rest2 =>
        if c2 < 29 ∨ 126 < c2 ∨ c2 = 36 ∨ c2 = 35 then
          -- invalid count byte: ungetc it, emit '*' as a literal
          recvLoop (c2 :: rest2) (acc ++ [if esc then 42 ^^^ 32 else 42])
            ((sum + 42) % 256) false
        else
          recvLoop rest2 (acc ++ List.replicate (c2 - 29) (acc.getLastD 0))
            ((sum + 42 + c2) % 256) esc
    else
      recvLoop rest (acc ++ [if esc then c ^^^ 32 else c]) ((sum + c) % 256) false

/-- Receiver `recv_packet(in, &ret_size, &ret_sum_ok)`: fast-forward to the first
`'$'` (consumed) or `'%'` (ungetted), then run the main loop. -/
def recv_packet (input : List Nat) : Option (List Nat × Bool × List Nat) :=
  match input.dropWhile (fun c => c != 36 && c != 37) with
  | [] => none                                         -- EOF before a packet
  | c :: rest =>
    if c = 37 then recvLoop (c :: rest) [] 0 false
    else recvLoop rest [] 0 false

/-! ## `gdb_start_noack` (`protocol.c`, lines 575-589) -/

/-- The C function is declared `bool` but executes `return ok ? "OK" : "";`:
either string literal is a non-null pointer, and converting a non-null
pointer to `bool` yields `true`. -/
def strLiteralAsBool (_s : String) : Bool := true

/-- Handshake `gdb_start_noack(conn)` as a function of the current `ack` flag and the
reply payload received for `QStartNoAckMode`; yields the returned boolean
and the new `ack` flag. -/
def gdb_start_noack (ack : Bool) (reply : List Char) : Bool × Bool :=
  let ok := reply.length = 2 ∧ reply = "OK".toList
  let ack' := if ok then false else ack
  (if ok then strLiteralAsBool "OK" else strLiteralAsBool "", ack')

/-! ## Signal map (`gdbserver.c`, `gdb_map_signal`)

`signals.def` is not under `src/`.  Modelled from the spec: the
`GDB_SIGNAL_*` indices follow GDB's signal enumeration (spec §4.E names
the realtime ranges; the exact numerals affect no theorem below).  The
RSP name table `gdb_signal_names` (NULL entries possible) and the host
signal-name oracle `signame`/`nsignals` are external inputs (spec §6),
passed as parameters. -/

def GDB_SIGNAL_0 : Nat := 0
def GDB_SIGNAL_REALTIME_32 : Nat := 77
def GDB_SIGNAL_REALTIME_33 : Nat := 45
def GDB_SIGNAL_REALTIME_63 : Nat := 75
def GDB_SIGNAL_REALTIME_64 : Nat := 78
def GDB_SIGNAL_REALTIME_127 : Nat := 141

/-- Mapping `gdb_map_signal(gdb_sig)` with the name tables passed explicitly:
`names g` is `gdb_signal_names[g]` (`none` for a NULL entry), `signame`
the host oracle, `nsignals` the host signal count. -/
def gdb_map_signal (names : Nat → Option (List Char)) (signame : Nat → List Char)
    (nsignals : Nat) (g : Nat) : Int :=
  if g = GDB_SIGNAL_0 then 0
  else if g = GDB_SIGNAL_REALTIME_32 then 32
  else if GDB_SIGNAL_REALTIME_33 ≤ g ∧ g ≤ GDB_SIGNAL_REALTIME_63 then
    (g : Int) - GDB_SIGNAL_REALTIME_33 + 33
  else if GDB_SIGNAL_REALTIME_64 ≤ g ∧ g ≤ GDB_SIGNAL_REALTIME_127 then
    (g : Int) - GDB_SIGNAL_REALTIME_64 + 64
  else match names g with
    | none => -1
    | some gname =>
      -- identity when the names line up (requires g < nsignals)
      if g < nsignals ∧ gname = signame g then (g : Int)
      else
        -- scan host signals 1 .. nsignals-1, skipping sig == g
        match (List.range' 1 (nsignals - 1)).find?
            (fun sig => sig ≠ g ∧ gname = signame sig) with
        | some sig => (sig : Int)
        | none => -1

/-- The mapping rule exactly as claim C6 words it, for comparison with
`gdb_map_signal`:  `0 ↦ 0`, the three realtime rules, then identity when
the RSP name at `g` equals the host name at `g` (host names exist for
indices below `nsignals`), then the first host index in `[1, nsignals)`
with a matching name, then the no-mapping sentinel. -/
def rsp_to_host_spec (names : Nat → Option (List Char)) (signame : Nat → List Char)
    (nsignals : Nat) (g : Nat) : Int :=
  if g = 0 then 0
  else if g = GDB_SIGNAL_REALTIME_32 then 32
  else if GDB_SIGNAL_REALTIME_33 ≤ g ∧ g ≤ GDB_SIGNAL_REALTIME_63 then
    (g : Int) - GDB_SIGNAL_REALTIME_33 + 33
  else if GDB_SIGNAL_REALTIME_64 ≤ g ∧ g ≤ GDB_SIGNAL_REALTIME_127 then
    (g : Int) - GDB_SIGNAL_REALTIME_64 + 64
  else if g < nsignals ∧ names g = some (signame g) then (g : Int)
  else match (List.range' 1 (nsignals - 1)).find?
      (fun sig => names g = some (signame sig)) with
    | some sig => (sig : Int)
    | none => -1

/-! ## Continuation emission and the trace step (`gdbserver.c`, `gdb_trace`) -/

/-- Formatting `sprintf("%x", v)` on an `unsigned int` value below `2^32`: lowercase
hex digits, no leading zeros, `"0"` for zero. -/
def hexDigitChar (n : Nat) : Char :=
  if n < 10 then Char.ofNat (48 + n) else Char.ofNat (97 + n - 10)

def natHex32 (n : Nat) : List Char :=
  let ds := ((List.range 8).map (fun i => n / 16 ^ (7 - i) % 16)).dropWhile (· = 0)
  (if ds = [] then [0] else ds).map hexDigitChar

/-- Formatting `sprintf("%02x", v)`: as `%x` but zero-padded to width two. -/
def natHexPad2 (n : Nat) : List Char :=
  let s := natHex32 n
  if s.length < 2 then '0' :: s else s

/-- The `unsigned int` value printed by `%x` for a C `int`. -/
def u32 (i : Int) : Nat := (i % 4294967296).toNat

/-- The continuation command emitted at the end of `gdb_trace`
(lines 779-800), from the pending signal `gdb_sig`, `gdb_vcont` and the
stopped thread `tid`. -/
def emitContinuation (gdb_sig : Int) (vcont : Bool) (tid : Int) : List Char :=
  if gdb_sig ≠ 0 then
    if vcont then
      "vCont;C".toList ++ natHexPad2 (u32 gdb_sig) ++ [':'] ++ natHex32 (u32 tid)
        ++ ";c".toList
    else 'C' :: natHexPad2 (u32 gdb_sig)
  else if vcont then "vCont;c".toList else ['c']

/-- Observable outcome of one `gdb_trace` step. -/
structure TraceStep where
  /-- Result `some b` for `return b`, `none` for a fatal `error_msg_and_die`. -/
  result : Option Bool
  /-- True when `print_exited` / `print_signalled` was called. -/
  printedExit : Bool
  /-- True when `droptcb` was called. -/
  dropped : Bool
  /-- The continuation command sent, when one is. -/
  cont : Option (List Char)
  deriving DecidableEq, Repr

/-- One iteration of `gdb_trace` (lines 639-802) with no queued
notification pending at the end of the iteration (`pop_notification`
returns `NULL`, so the loop breaks after one pass).  `reply` is the stop
packet `gdb_recv_stop` parsed, `multi` is `gdb_multiprocess`, `vcont` is
`gdb_vcont`, and `cur` is `current_tcp`'s thread id when it is non-NULL.
External effects (`get_regs`, `trace_syscall`, `print_stopped`, ...) are
not observed beyond the fields of `TraceStep`. -/
def gdb_trace_step (reply : List Char) (multi vcont : Bool) (cur : Option Int) :
    TraceStep :=
  let stop := gdb_recv_stop_pure reply
  if reply.length = 0 then ⟨none, false, false, none⟩       -- empty reply: fatal
  else if stop.type = GdbStop.unknown then ⟨none, false, false, none⟩  -- fatal
  else if stop.type = GdbStop.error then ⟨some false, false, false, none⟩
  else
    let tid : Int := if multi then stop.tid else cur.getD (-1)
    -- under multiprocess, gdb_find_thread(tid, true) allocates and only
    -- returns NULL for tid < 0; otherwise tcp is current_tcp
    let tcpExists : Bool := if multi then decide (0 ≤ stop.tid) else cur.isSome
    if tid < 0 ∨ tcpExists = false then ⟨none, false, false, none⟩ -- fatal
    else
      let exited := stop.type = GdbStop.exited ∨ stop.type = GdbStop.terminated
      if exited ∧ multi = false then ⟨some false, true, true, none⟩
      else
        let gdb_sig : Int := if stop.type = GdbStop.signal then stop.code else 0
        ⟨some true, decide exited, decide exited,
          some (emitContinuation gdb_sig vcont tid)⟩

/-! ## `gdb_read_mem` (`gdbserver.c`, lines 816-850) -/

/-- Facade `gdb_read_mem(tid, addr, len, check_nil, out)` with the server's chunk
replies passed as a list.  Returns `(result, out, requests)` where
`requests` lists each `m<addr>,<len>` command's address and length;
`none` models an exhausted reply stream (the transport would block). -/
def gdb_read_mem (check_nil : Bool) :
    Nat → Nat → List (List Char) → Option (Int × List Nat × List (Nat × Nat))
  | _, 0, _ => some (0, [], [])
  | _, _, [] => none
  | addr, len, r :: rs =>
    let chunk_req := min len 4096                      -- len < 0x1000 ? len : 0x1000
    let size := r.length
    match gdb_decode_hex_buf r with
    | none => some (-1, [], [(addr, chunk_req)])       -- odd size or bad hex
    | some bytes =>
      if size < 2 ∨ r.take 1 = ['E'] ∨ len * 2 < size then
        some (-1, [], [(addr, chunk_req)])
      else
        let chunk_len := size / 2
        if check_nil ∧ bytes.contains 0 then           -- strnlen(out, chunk) < chunk
          some (1, bytes, [(addr, chunk_req)])
        else match gdb_read_mem check_nil (addr + chunk_len) (len - chunk_len) rs with
          | none => none
          | some (res, out, reqs) =>
            some (res, bytes ++ out, (addr, chunk_req) :: reqs)

/-! ## Helper lemmas -/

/-- The hex accumulator never decreases. -/
theorem le_hexFoldl : ∀ (s : List Char) (v : Nat),
    v ≤ s.foldl (fun a c => 16 * a + hex_nibble c) v := by
  intro s
  induction s with
  | nil => intro v; simp
  | cons c cs ih =>
    intro v
    simp only [List.foldl_cons]
    exact le_trans (by omega) (ih (16 * v + hex_nibble c))

/-- On an all-hex input that fits in a `uint64_t`, the decoder loop is the
pure fold (no truncation, no early stop). -/
theorem decodeHexGo_all_hex : ∀ (a : List Char) (n v : Nat), a.length ≤ n →
    (∀ c ∈ a, isHexDigit c = true) →
    a.foldl (fun x c => 16 * x + hex_nibble c) v < 18446744073709551616 →
    decodeHexGo n a v = a.foldl (fun x c => 16 * x + hex_nibble c) v := by
  intro a
  induction a with
  | nil => intro n v _ _ _; cases n <;> rfl
  | cons c cs ih =>
    intro n v hn hhex hov
    match n with
    | 0 => simp at hn
    | m + 1 =>
      have hc : hex_nibble c < 16 := by
        have := hhex c (List.mem_cons_self c cs)
        simpa [isHexDigit] using this
      simp only [List.foldl_cons] at hov ⊢
      have hle : 16 * v + hex_nibble c ≤
          cs.foldl (fun x c => 16 * x + hex_nibble c) (16 * v + hex_nibble c) :=
        le_hexFoldl cs (16 * v + hex_nibble c)
      rw [decodeHexGo, if_neg (by omega),
        Nat.mod_eq_of_lt (by omega)]
      exact ih m (16 * v + hex_nibble c) (by simpa using hn)
        (fun x hx => hhex x (List.mem_cons_of_mem c hx)) hov

/-- The decoder stops at the first non-hex character, returning the value
of the all-hex part before it. -/
theorem decodeHexGo_stop : ∀ (a : List Char) (c : Char) (b : List Char) (n v : Nat),
    a.length ≤ n → (∀ x ∈ a, isHexDigit x = true) → isHexDigit c = false →
    a.foldl (fun x c => 16 * x + hex_nibble c) v < 18446744073709551616 →
    decodeHexGo n (a ++ c :: b) v = a.foldl (fun x c => 16 * x + hex_nibble c) v := by
  intro a
  induction a with
  | nil =>
    intro c b n v _ _ hc _
    have hc' : 16 ≤ hex_nibble c := by
      by_contra h
      simp [isHexDigit, Nat.lt_of_not_le] at hc
      omega
    cases n with
    | zero => rfl
    | succ m => simp [decodeHexGo, if_pos hc']
  | cons x xs ih =>
    intro c b n v hn hhex hc hov
    match n with
    | 0 => simp at hn
    | m + 1 =>
      have hx : hex_nibble x < 16 := by
        have := hhex x (List.mem_cons_self x xs)
        simpa [isHexDigit] using this
      simp only [List.foldl_cons] at hov ⊢
      have hle : 16 * v + hex_nibble x ≤
          xs.foldl (fun a c => 16 * a + hex_nibble c) (16 * v + hex_nibble x) :=
        le_hexFoldl xs (16 * v + hex_nibble x)
      rw [List.cons_append, decodeHexGo, if_neg (by omega),
        Nat.mod_eq_of_lt (by omega)]
      exact ih c b m (16 * v + hex_nibble x) (by simpa using hn)
        (fun y hy => hhex y (List.mem_cons_of_mem x hy)) hc hov

/-- Evaluating `gdb_decode_hex_str` on an all-hex string gives its hex value. -/
theorem gdb_decode_hex_str_eq (s : List Char)
    (h1 : ∀ c ∈ s, isHexDigit c = true) (h2 : hexVal s < 18446744073709551616) :
    gdb_decode_hex_str s = hexVal s :=
  decodeHexGo_all_hex s s.length 0 le_rfl h1 h2

/-- Evaluating `gdb_decode_hex_str` on an all-hex part followed by a non-hex
character is the value of the hex part. -/
theorem gdb_decode_hex_str_stop (a : List Char) (c : Char) (b : List Char)
    (h1 : ∀ x ∈ a, isHexDigit x = true) (hc : isHexDigit c = false)
    (h2 : hexVal a < 18446744073709551616) :
    gdb_decode_hex_str (a ++ c :: b) = hexVal a :=
  decodeHexGo_stop a c b (a ++ c :: b).length 0 (by simp) h1 hc h2

/-- Conversion `toInt32` is the identity below `2^31`. -/
theorem toInt32_small (v : Nat) (h : v < 2147483648) : toInt32 v = v := by
  unfold toInt32
  rw [Nat.mod_eq_of_lt (by omega), if_pos (by omega)]

/-- A hex digit is not one of the separator characters. -/
theorem hexDigit_ne (c : Char) (h : isHexDigit c = true) :
    c ≠ ';' ∧ c ≠ ':' ∧ c ≠ '.' := by
  refine ⟨?_, ?_, ?_⟩ <;> (intro hc; subst hc; simp [isHexDigit, hex_nibble, hexNibbleN] at h)

/-- Splitting on `';'`: a `';'`-free chunk followed by `';'` yields one
token. -/
theorem splitSemisAux_append (b : List Char) :
    ∀ (a acc : List Char), (∀ c ∈ a, c ≠ ';') → acc ++ a ≠ [] →
    splitSemisAux (a ++ ';' :: b) acc = (acc ++ a) :: splitSemisAux b [] := by
  intro a
  induction a with
  | nil =>
    intro acc _ hne
    simp only [List.append_nil] at hne ⊢
    simp [splitSemisAux, hne]
  | cons c cs ih =>
    intro acc hsemi _
    have hc : c ≠ ';' := hsemi c (List.mem_cons_self c cs)
    rw [List.cons_append, splitSemisAux]
    simp only [if_neg hc]
    rw [ih (acc ++ [c]) (fun x hx => hsemi x (List.mem_cons_of_mem c hx)) (by simp)]
    simp

/-- A `';'`-free, nonempty trailing chunk yields one final token. -/
theorem splitSemisAux_last :
    ∀ (a acc : List Char), (∀ c ∈ a, c ≠ ';') → acc ++ a ≠ [] →
    splitSemisAux a acc = [acc ++ a] := by
  intro a
  induction a with
  | nil =>
    intro acc _ hne
    simp only [List.append_nil] at hne ⊢
    simp [splitSemisAux, hne]
  | cons c cs ih =>
    intro acc hsemi _
    have hc : c ≠ ';' := hsemi c (List.mem_cons_self c cs)
    rw [splitSemisAux]
    simp only [if_neg hc]
    rw [ih (acc ++ [c]) (fun x hx => hsemi x (List.mem_cons_of_mem c hx)) (by simp)]
    simp

/-- The function `takeWhile` runs through a chunk where the predicate holds. -/
theorem takeWhile_append_all (p : Char → Bool) :
    ∀ (a b : List Char), (∀ c ∈ a, p c = true) →
    (a ++ b).takeWhile p = a ++ b.takeWhile p := by
  intro a
  induction a with
  | nil => intro b _; simp
  | cons c cs ih =>
    intro b h
    rw [List.cons_append, List.takeWhile_cons, if_pos (h c (List.mem_cons_self c cs)),
      ih b (fun x hx => h x (List.mem_cons_of_mem c hx))]
    rfl

/-- The function `dropWhile` runs through a chunk where the predicate holds. -/
theorem dropWhile_append_all (p : Char → Bool) :
    ∀ (a b : List Char), (∀ c ∈ a, p c = true) →
    (a ++ b).dropWhile p = b.dropWhile p := by
  intro a
  induction a with
  | nil => intro b _; simp
  | cons c cs ih =>
    intro b h
    rw [List.cons_append, List.dropWhile_cons, if_pos (h c (List.mem_cons_self c cs))]
    exact ih b (fun x hx => h x (List.mem_cons_of_mem c hx))

/-- The result of `find?` only depends on the predicate's values on the list. -/
theorem find?_congr_pred {α : Type} (p q : α → Bool) :
    ∀ (l : List α), (∀ x ∈ l, p x = q x) → l.find? p = l.find? q := by
  intro l
  induction l with
  | nil => intro _; rfl
  | cons x xs ih =>
    intro h
    rw [List.find?_cons, List.find?_cons, h x (List.mem_cons_self x xs),
      ih (fun y hy => h y (List.mem_cons_of_mem x hy))]

/-- Evaluating `pairOf` on a well-formed `key:value` token. -/
theorem pairOf_keyval (k r : List Char) (x : Char) (xs : List Char)
    (hk : k = x :: xs) (hx : x ≠ ':') (hcol : ∀ c ∈ k, c ≠ ':') (hr : r ≠ []) :
    pairOf (k ++ ':' :: r) = some (k, r) := by
  subst hk
  unfold pairOf
  have hdrop : ((x :: xs) ++ ':' :: r).dropWhile (· = ':') = (x :: xs) ++ ':' :: r := by
    rw [List.cons_append, List.dropWhile_cons, if_neg (by simp [hx])]
  rw [hdrop, if_neg (by simp)]
  have htake : ((x :: xs) ++ ':' :: r).takeWhile (· ≠ ':') = x :: xs := by
    rw [takeWhile_append_all _ _ _ (fun c hc => by simp [hcol c hc]),
      List.takeWhile_cons, if_neg (by simp), List.append_nil]
  have hdrop2 : ((x :: xs) ++ ':' :: r).dropWhile (· ≠ ':') = ':' :: r := by
    rw [dropWhile_append_all _ _ _ (fun c hc => by simp [hcol c hc]),
      List.dropWhile_cons, if_neg (by simp)]
  rw [htake, hdrop2, if_neg (by simp), List.drop_one, List.tail_cons, if_neg hr]

/-- C1: every payload `T05syscall_entry:<n>;thread:p<P>.<T>;` (hex numerals
`n`, `P`, `T`) parses to a stop reply of kind `SyscallEntry` with
`code = n`, `pid = P`, `tid = T`; and the `syscall_entry` key promotes the
kind only when the kind at that point is `Trap`. -/
theorem spec_stop_parse_syscall_entry :
    (∀ ds es fs : List Char,
      ds ≠ [] → (∀ c ∈ ds, isHexDigit c = true) → hexVal ds < 2147483648 →
      es ≠ [] → (∀ c ∈ es, isHexDigit c = true) → hexVal es < 2147483648 →
      fs ≠ [] → (∀ c ∈ fs, isHexDigit c = true) → hexVal fs < 2147483648 →
      gdb_recv_stop_pure
          ("T05syscall_entry:".toList ++ ds ++ ";thread:p".toList ++ es
            ++ ['.'] ++ fs ++ [';'])
        = ⟨GdbStop.syscall_entry, (hexVal ds : Int), (hexVal es : Int), (hexVal fs : Int)⟩)
    ∧ (∀ (st : GdbStopReply) (r : List Char), st.type ≠ GdbStop.trap →
        processPair st "syscall_entry".toList r = st) := by
  constructor
  · intro ds es fs hds1 hds2 hds3 hes1 hes2 hes3 hfs1 hfs2 hfs3
    have hWds : hexVal ds < 18446744073709551616 := lt_trans hds3 (by norm_num)
    have hWes : hexVal es < 18446744073709551616 := lt_trans hes3 (by norm_num)
    have hWfs : hexVal fs < 18446744073709551616 := lt_trans hfs3 (by norm_num)
    -- rewrite the payload into head-normal form
    have e1 : "T05syscall_entry:".toList ++ ds ++ ";thread:p".toList ++ es
          ++ ['.'] ++ fs ++ [';']
        = 'T' :: '0' :: '5' :: ("syscall_entry:".toList
            ++ (ds ++ (';' :: ("thread:p".toList ++ (es ++ ('.' :: (fs ++ [';']))))))) := by
      rw [show "T05syscall_entry:".toList
            = 'T' :: '0' :: '5' :: "syscall_entry:".toList from rfl]
      simp [List.append_assoc]
    rw [e1]
    -- dispatch in gdb_recv_stop_pure: length ≥ 3, first byte 'T'
    unfold gdb_recv_stop_pure
    rw [if_neg (by simp), if_neg (by simp), if_pos (by simp)]
    -- gdb_recv_signal: code 05 → trap
    unfold gdb_recv_signal
    rw [show ('T' :: '0' :: '5' :: ("syscall_entry:".toList
          ++ (ds ++ (';' :: ("thread:p".toList ++ (es ++ ('.' :: (fs ++ [';'])))))))).drop 1
        = '0' :: '5' :: ("syscall_entry:".toList
          ++ (ds ++ (';' :: ("thread:p".toList ++ (es ++ ('.' :: (fs ++ [';']))))))) from rfl]
    rw [show ∀ t : List Char, gdb_decode_hex_n ('0' :: '5' :: t) 2 = 5 from fun _ => rfl]
    rw [show toInt32 5 = 5 from rfl]
    simp only []
    rw [if_pos (show (5 : Int) = (GDB_SIGNAL_TRAP : Nat) ∨ (5 : Int) = 0 from by
      norm_num [GDB_SIGNAL_TRAP])]
    rw [show ('T' :: '0' :: '5' :: ("syscall_entry:".toList
          ++ (ds ++ (';' :: ("thread:p".toList ++ (es ++ ('.' :: (fs ++ [';'])))))))).drop 3
        = "syscall_entry:".toList
          ++ (ds ++ (';' :: ("thread:p".toList ++ (es ++ ('.' :: (fs ++ [';'])))))) from rfl]
    -- tokenize: two tokens
    have hsp : splitSemis ("syscall_entry:".toList
        ++ (ds ++ (';' :: ("thread:p".toList ++ (es ++ ('.' :: (fs ++ [';'])))))))
        = ("syscall_entry:".toList ++ ds)
          :: ("thread:p".toList ++ (es ++ ('.' :: fs))) :: [] := by
      unfold splitSemis
      rw [show "syscall_entry:".toList
            ++ (ds ++ (';' :: ("thread:p".toList ++ (es ++ ('.' :: (fs ++ [';']))))))
          = ("syscall_entry:".toList ++ ds)
            ++ ';' :: ("thread:p".toList ++ (es ++ ('.' :: (fs ++ [';']))))
          from by simp [List.append_assoc]]
      rw [splitSemisAux_append _ _ []
        (by
          intro c hc
          rcases List.mem_append.mp hc with h | h
          · revert h
            have : ∀ c ∈ "syscall_entry:".toList, c ≠ ';' := by decide
            exact this c
          · exact (hexDigit_ne c (hds2 c h)).1)
        (by simp)]
      rw [show "thread:p".toList ++ (es ++ ('.' :: (fs ++ [';'])))
          = ("thread:p".toList ++ (es ++ ('.' :: fs))) ++ ';' :: [] from by
            simp [List.append_assoc]]
      rw [splitSemisAux_append _ _ []
        (by
          intro c hc
          rcases List.mem_append.mp hc with h | h
          · revert h
            have : ∀ c ∈ "thread:p".toList, c ≠ ';' := by decide
            exact this c
          · rcases List.mem_append.mp h with h' | h'
            · exact (hexDigit_ne c (hes2 c h')).1
            · rcases List.mem_cons.mp h' with h'' | h''
              · subst h''; decide
              · exact (hexDigit_ne c (hfs2 c h'')).1)
        (by simp)]
      rfl
    rw [hsp]
    -- extract the two key:value pairs
    have hp1 : pairOf ("syscall_entry:".toList ++ ds)
        = some ("syscall_entry".toList, ds) := by
      rw [show "syscall_entry:".toList ++ ds = "syscall_entry".toList ++ ':' :: ds
          from rfl]
      exact pairOf_keyval _ _ 's' "yscall_entry".toList rfl (by decide) (by decide) hds1
    have hp2 : pairOf ("thread:p".toList ++ (es ++ ('.' :: fs)))
        = some ("thread".toList, 'p' :: (es ++ ('.' :: fs))) := by
      rw [show "thread:p".toList ++ (es ++ ('.' :: fs))
          = "thread".toList ++ ':' :: ('p' :: (es ++ ('.' :: fs))) from rfl]
      exact pairOf_keyval _ _ 't' "hread".toList rfl (by decide) (by decide) (by simp)
    simp only [List.filterMap_cons, hp1, hp2, List.filterMap_nil]
    simp only [List.foldl_cons, List.foldl_nil]
    -- first pair: syscall_entry promotes trap and sets the code
    have hpp1 : processPair ⟨GdbStop.trap, 5, initStop.pid, initStop.tid⟩
        "syscall_entry".toList ds
        = ⟨GdbStop.syscall_entry, (hexVal ds : Int), -1, -1⟩ := by
      unfold processPair
      rw [if_neg (by decide), if_pos rfl, if_pos rfl,
        gdb_decode_hex_str_eq ds hds2 hWds, toInt32_small _ hds3]
      rfl
    -- second pair: thread:pP.T sets pid and tid
    have hpp2 : processPair ⟨GdbStop.syscall_entry, (hexVal ds : Int), -1, -1⟩
        "thread".toList ('p' :: (es ++ ('.' :: fs)))
        = ⟨GdbStop.syscall_entry, (hexVal ds : Int), (hexVal es : Int), (hexVal fs : Int)⟩ := by
      unfold processPair
      rw [if_pos rfl]
      have hpt : gdb_parse_thread ('p' :: (es ++ ('.' :: fs)))
          = ((hexVal es : Int), (hexVal fs : Int)) := by
        unfold gdb_parse_thread
        rw [if_pos (by simp)]
        rw [show ('p' :: (es ++ ('.' :: fs))).drop 1 = es ++ ('.' :: fs) from rfl]
        simp only []
        rw [dropWhile_append_all _ es _
          (fun c hc => by simp [(hexDigit_ne c (hes2 c hc)).2.2]),
          List.dropWhile_cons, if_neg (by simp)]
        rw [if_neg (by simp), List.drop_one, List.tail_cons]
        rw [gdb_decode_hex_str_stop es '.' fs hes2 (by decide) hWes,
          toInt32_small _ hes3,
          gdb_decode_hex_str_eq fs hfs2 hWfs, toInt32_small _ hfs3]
      rw [hpt]
    rw [hpp1, hpp2]
  · intro st r h
    unfold processPair
    rw [if_neg (by decide), if_pos rfl, if_neg h]

/-- Witness for C1 at `T05syscall_entry:3b;thread:p7b.7b;`. -/
theorem spec_stop_parse_syscall_entry_witness :
    gdb_recv_stop_pure
        ("T05syscall_entry:".toList ++ ['3', 'b'] ++ ";thread:p".toList ++ ['7', 'b']
          ++ ['.'] ++ ['7', 'b'] ++ [';'])
      = ⟨GdbStop.syscall_entry, (hexVal ['3', 'b'] : Int), (hexVal ['7', 'b'] : Int),
          (hexVal ['7', 'b'] : Int)⟩
    ∧ processPair initStop "syscall_entry".toList ['3', 'b'] = initStop :=
  ⟨spec_stop_parse_syscall_entry.1 ['3', 'b'] ['7', 'b'] ['7', 'b']
      (by decide) (by decide) (by decide) (by decide) (by decide) (by decide)
      (by decide) (by decide) (by decide),
   spec_stop_parse_syscall_entry.2 initStop ['3', 'b'] (by decide)⟩

/-! ### Queue lemmas (C2, C10) -/

/-- Pushing into a fully occupied queue appends. -/
theorem setFirstNone_allsome : ∀ (qs : List (List Char)) (p : List Char),
    setFirstNone (qs.map some) p = (qs ++ [p]).map some := by
  intro qs p
  induction qs with
  | nil => rfl
  | cons q qs ih => simp [setFirstNone, ih]

/-- A train of filtered pushes into a fully occupied queue appends in
order. -/
theorem pushAll_allsome : ∀ (ps qs : List (List Char)),
    (∀ p ∈ ps, syscallNotif p = true) →
    ps.foldl (fun s p => push_notification p s) (qs.map some)
      = (qs ++ ps).map some := by
  intro ps
  induction ps with
  | nil => intro qs _; simp
  | cons p ps ih =>
    intro qs h
    simp only [List.foldl_cons]
    rw [show push_notification p (qs.map some) = setFirstNone (qs.map some) p from by
        simp [push_notification, h p (List.mem_cons_self p ps)],
      setFirstNone_allsome,
      ih (qs ++ [p]) (fun x hx => h x (List.mem_cons_of_mem p hx))]
    simp

/-- Unfolding `pop_notification` past an empty slot. -/
theorem pop_none_cons (l : NotifState) :
    pop_notification (none :: l)
      = ((pop_notification l).1, none :: (pop_notification l).2) := rfl

/-- Popping a queue whose occupied slots sit behind `k` empty ones. -/
theorem pop_replicate_none : ∀ (k : Nat) (p : List Char) (ps : List (List Char)),
    pop_notification (List.replicate k none ++ (p :: ps).map some)
      = (some p, List.replicate (k + 1) none ++ ps.map some) := by
  intro k
  induction k with
  | zero => intro p ps; rfl
  | succ k ih =>
    intro p ps
    rw [List.replicate_succ, List.cons_append, pop_none_cons, ih p ps]
    simp [List.replicate_succ]

/-- Exactly `ps.length` pops return `ps` in order. -/
theorem popN_replicate_none : ∀ (ps : List (List Char)) (k : Nat),
    (popN ps.length (List.replicate k none ++ ps.map some)).1 = ps.map some := by
  intro ps
  induction ps with
  | nil => intro k; rfl
  | cons p ps ih =>
    intro k
    simp only [List.length_cons, popN, pop_replicate_none k p ps, ih (k + 1)]
    rfl

/-- C2 counterexample: after push `01;`, push `02;`, pop (which returns
`01;`), push `03;`, the next pop returns `03;` — not the older `02;` —
because `push_notification` reuses the slot the pop freed. -/
theorem spec_notif_fifo_counterexample :
    (runNotifOps [NotifOp.push "T05syscall_entry:01;".toList,
        NotifOp.push "T05syscall_entry:02;".toList, NotifOp.pop,
        NotifOp.push "T05syscall_entry:03;".toList, NotifOp.pop] []).2
      = [some "T05syscall_entry:01;".toList, some "T05syscall_entry:03;".toList]
    ∧ "T05syscall_entry:03;".toList ≠ "T05syscall_entry:02;".toList := by
  decide

/-- C2 (amended): `pop_notification` returns the occupied slot of least
index (so delivery is FIFO whenever all pushes precede the pops, e.g. a
burst-then-drain), and returns `none` exactly when the queue is empty. -/
theorem spec_notif_queue_pop_order :
    (∀ ps : List (List Char), (∀ p ∈ ps, syscallNotif p = true) →
      (popN ps.length (ps.foldl (fun s p => push_notification p s) [])).1
        = ps.map some)
    ∧ (∀ s : NotifState, (pop_notification s).1 = none ↔ ∀ slot ∈ s, slot = none) := by
  constructor
  · intro ps h
    have h0 : ps.foldl (fun s p => push_notification p s) []
        = (([] : List (List Char)) ++ ps).map some := pushAll_allsome ps [] h
    rw [h0]
    simpa using popN_replicate_none ps 0
  · intro s
    induction s with
    | nil => simp [pop_notification]
    | cons slot s ih =>
      cases slot with
      | none => simpa [pop_notification] using ih
      | some q => simp [pop_notification]

/-- Witness for C2's amended theorem on a singleton burst. -/
theorem spec_notif_queue_pop_order_witness :
    (popN 1 (["T05syscall_entry:01;".toList].foldl
        (fun (s : NotifState) p => push_notification p s) [])).1
      = [some "T05syscall_entry:01;".toList]
    ∧ ((pop_notification []).1 = none ↔ ∀ slot ∈ ([] : NotifState), slot = none) := by
  constructor
  · have h := spec_notif_queue_pop_order.1 ["T05syscall_entry:01;".toList] (by decide)
    simpa using h
  · exact spec_notif_queue_pop_order.2 []

/-- The filter invariant restricts to the tail. -/
theorem goodState_tail (slot0 : Option (List Char)) (s : NotifState)
    (h : goodState (slot0 :: s)) : goodState s :=
  fun slot hslot q hq => h slot (List.mem_cons_of_mem slot0 hslot) q hq

/-- Applying `setFirstNone` with a filtered payload preserves the invariant. -/
theorem goodState_setFirstNone (p : List Char) (hp : syscallNotif p = true) :
    ∀ s : NotifState, goodState s → goodState (setFirstNone s p) := by
  intro s
  induction s with
  | nil =>
    intro _ slot hslot q hq
    simp only [setFirstNone, List.mem_singleton] at hslot
    subst hslot
    cases hq
    exact hp
  | cons slot0 s ih =>
    intro hs
    cases slot0 with
    | none =>
      intro slot hslot q hq
      simp only [setFirstNone, List.mem_cons] at hslot
      rcases hslot with h | h
      · subst h; cases hq; exact hp
      · exact goodState_tail none s hs slot h q hq
    | some q0 =>
      intro slot hslot q hq
      simp only [setFirstNone, List.mem_cons] at hslot
      rcases hslot with h | h
      · subst h
        exact hs (some q0) (List.mem_cons_self _ _) q hq
      · exact ih (goodState_tail (some q0) s hs) slot h q hq

/-- The push operation preserves the filter invariant. -/
theorem goodState_push (p : List Char) (s : NotifState)
    (hs : goodState s) : goodState (push_notification p s) := by
  unfold push_notification
  by_cases hp : syscallNotif p = true
  · rw [if_pos hp]
    exact goodState_setFirstNone p hp s hs
  · rw [if_neg hp]
    exact hs

/-- The pop operation preserves the invariant and returns a filtered
payload. -/
theorem goodState_pop : ∀ s : NotifState, goodState s →
    goodState (pop_notification s).2
    ∧ (∀ p, (pop_notification s).1 = some p → syscallNotif p = true) := by
  intro s
  induction s with
  | nil =>
    intro _
    exact ⟨fun slot hslot => by simp [pop_notification] at hslot,
      by simp [pop_notification]⟩
  | cons slot0 s ih =>
    intro hs
    cases slot0 with
    | none =>
      have ⟨ih1, ih2⟩ := ih (goodState_tail none s hs)
      refine ⟨?_, ?_⟩
      · intro slot hslot q hq
        simp only [pop_notification, List.mem_cons] at hslot
        rcases hslot with h | h
        · subst h; cases hq
        · exact ih1 slot h q hq
      · intro p hp
        simp only [pop_notification] at hp
        exact ih2 p hp
    | some q0 =>
      refine ⟨?_, ?_⟩
      · intro slot hslot q hq
        simp only [pop_notification, List.mem_cons] at hslot
        rcases hslot with h | h
        · subst h; cases hq
        · exact goodState_tail (some q0) s hs slot h q hq
      · intro p hp
        have hqp : q0 = p := by simpa [pop_notification] using hp
        subst hqp
        exact hs (some q0) (List.mem_cons_self _ _) q0 rfl

/-- Every pop over any operation sequence from a good state is filtered. -/
theorem runNotifOps_good : ∀ (ops : List NotifOp) (s : NotifState),
    goodState s →
    ∀ r ∈ (runNotifOps ops s).2, ∀ p, r = some p → syscallNotif p = true := by
  intro ops
  induction ops with
  | nil => intro s _ r hr; simp [runNotifOps] at hr
  | cons op ops ih =>
    intro s hs r hr p hrp
    cases op with
    | push q =>
      exact ih (push_notification q s) (goodState_push q s hs) r hr p hrp
    | pop =>
      have ⟨h1, h2⟩ := goodState_pop s hs
      simp only [runNotifOps, List.mem_cons] at hr
      rcases hr with h | h
      · subst h; exact h2 p hrp
      · exact ih (pop_notification s).2 h1 r h p hrp

/-- C10: `push_notification` stores a payload only when its bytes at
offsets 3..9 are exactly `syscall`; any other payload is discarded, so a
payload failing the filter is never returned by `pop_notification`, over
any operation sequence starting from the empty queue. -/
theorem spec_push_notification_filter :
    (∀ (p : List Char) (s : NotifState), syscallNotif p = false →
      push_notification p s = s)
    ∧ (∀ (ops : List NotifOp) (r : Option (List Char)) (p : List Char),
        r ∈ (runNotifOps ops []).2 → r = some p → syscallNotif p = true) := by
  constructor
  · intro p s h
    simp [push_notification, h]
  · intro ops r p hr hrp
    exact runNotifOps_good ops [] (fun slot hslot => by simp at hslot) r hr p hrp

/-- Witness for C10: a non-`syscall` payload is dropped; a `syscall` one
that was pushed and popped did satisfy the filter. -/
theorem spec_push_notification_filter_witness :
    push_notification "OK".toList [] = []
    ∧ syscallNotif "T05syscall_entry:01;".toList = true :=
  ⟨spec_push_notification_filter.1 "OK".toList [] (by decide),
   spec_push_notification_filter.2
     [NotifOp.push "T05syscall_entry:01;".toList, NotifOp.pop]
     (some "T05syscall_entry:01;".toList) "T05syscall_entry:01;".toList
     (by decide) rfl⟩
/-! ### `gdb_recv` redirection (C3) -/

/-- C3 counterexample: with `want_stop = false` and two consecutive
`T05syscall` packets on the wire, the second one IS returned to the
caller — the redirection in `gdb_recv` is a one-shot `if`, not a loop. -/
theorem spec_recv_redirect_counterexample :
    gdb_recv_model false false
        [("T05syscall_entry:01;".toList, true), ("T05syscall_entry:02;".toList, true)] []
      = some ("T05syscall_entry:02;".toList, [some "T05syscall_entry:01;".toList], [])
    ∧ "T05syscall_entry:02;".toList.take 10 = "T05syscall".toList := by
  decide

/-- C3 (amended): with `want_stop = false` (no-ack mode shown), a packet
matching `T05syscall` is pushed onto the queue and the single next packet
is returned in its place, without re-checking it; a non-matching packet is
returned directly. -/
theorem spec_recv_redirect_once :
    (∀ (p1 p2 : List Char) (s2 : Bool) (rest : List (List Char × Bool)) (q : NotifState),
      p1.take 10 = "T05syscall".toList →
      gdb_recv_model false false ((p1, true) :: (p2, s2) :: rest) q
        = some (p2, push_notification p1 q, rest))
    ∧ (∀ (p : List Char) (s1 : Bool) (rest : List (List Char × Bool)) (q : NotifState),
      p.take 10 ≠ "T05syscall".toList →
      gdb_recv_model false false ((p, s1) :: rest) q = some (p, q, rest)) := by
  constructor
  · intro p1 p2 s2 rest q h
    unfold gdb_recv_model
    rw [if_pos ⟨by simp, h⟩]
    simp
  · intro p s1 rest q h
    unfold gdb_recv_model
    rw [if_neg (fun hc => h hc.2)]
    simp

/-- Witness for C3's amended theorem. -/
theorem spec_recv_redirect_once_witness :
    gdb_recv_model false false
        [("T05syscall_entry:01;".toList, true), ("OK".toList, true)] []
      = some ("OK".toList, push_notification "T05syscall_entry:01;".toList [], [])
    ∧ gdb_recv_model false false [("OK".toList, true)] [] = some ("OK".toList, [], []) :=
  ⟨spec_recv_redirect_once.1 "T05syscall_entry:01;".toList "OK".toList true [] []
      (by decide),
   spec_recv_redirect_once.2 "OK".toList true [] [] (by decide)⟩

/-! ### Continuation commands (C4) -/

set_option maxRecDepth 8192 in
/-- Formatting `%02x` of a byte value gives exactly its two lowercase hex digits. -/
theorem natHexPad2_eq : ∀ k, k < 256 →
    natHexPad2 k = [hexDigitChar (k / 16), hexDigitChar (k % 16)] := by
  decide

/-- A nonnegative `int` below `2^31` prints under `%x` as its own value. -/
theorem u32_eq_toNat (i : Int) (h0 : 0 ≤ i) (h1 : i < 2147483648) :
    u32 i = i.toNat := by
  unfold u32
  rw [Int.emod_eq_of_lt h0 (by omega)]

/-- C4: the continuation emitted after handling a stop is
`vCont;C<hh>:<tid>;c` (injection specifier before the blanket `;c`) for a
pending signal with vCont, `C<hh>` without vCont, `vCont;c` with no signal,
and `c` otherwise; scenario S3 end to end. -/
theorem spec_continuation_commands :
    (∀ (sig tid : Int), 0 < sig → sig < 256 → 0 ≤ tid → tid < 2147483648 →
      emitContinuation sig true tid
        = "vCont;C".toList
          ++ [hexDigitChar (sig.toNat / 16), hexDigitChar (sig.toNat % 16)]
          ++ [':'] ++ natHex32 tid.toNat ++ ";c".toList
      ∧ emitContinuation sig false tid
        = 'C' :: [hexDigitChar (sig.toNat / 16), hexDigitChar (sig.toNat % 16)])
    ∧ (∀ tid : Int, emitContinuation 0 true tid = "vCont;c".toList
        ∧ emitContinuation 0 false tid = ['c'])
    ∧ (gdb_trace_step "T0b;thread:p7b.7b;".toList true true none).cont
        = some "vCont;C0b:7b;c".toList := by
  refine ⟨?_, ?_, by decide⟩
  · intro sig tid hs0 hs1 ht0 ht1
    have hsu : u32 sig = sig.toNat := u32_eq_toNat sig (le_of_lt hs0) (by omega)
    have htu : u32 tid = tid.toNat := u32_eq_toNat tid ht0 ht1
    have hlt : sig.toNat < 256 := by omega
    constructor
    · unfold emitContinuation
      rw [if_pos (by omega), if_pos rfl, hsu, htu, natHexPad2_eq sig.toNat hlt]
    · unfold emitContinuation
      rw [if_pos (by omega), hsu, natHexPad2_eq sig.toNat hlt]
      simp
  · intro tid
    constructor
    · simp [emitContinuation]
    · simp [emitContinuation]

/-- Witness for C4 at SIGSEGV (0x0b) on thread 0x7b. -/
theorem spec_continuation_commands_witness :
    emitContinuation 11 true 123
      = "vCont;C".toList
        ++ [hexDigitChar ((11 : Int).toNat / 16), hexDigitChar ((11 : Int).toNat % 16)]
        ++ [':'] ++ natHex32 (123 : Int).toNat ++ ";c".toList
    ∧ emitContinuation 0 true 123 = "vCont;c".toList :=
  ⟨(spec_continuation_commands.1 11 123 (by norm_num) (by norm_num) (by norm_num)
      (by norm_num)).1,
   (spec_continuation_commands.2.1 123).1⟩

/-! ### The trace step's return value (C5) -/

/-- C5: with no queued notification pending, `gdb_trace` returns `false`
exactly for an `E<hh>` stop, or for a `W`/`X` stop with multiprocess
disabled (the exit/termination printer and `droptcb` having run first);
every other non-fatal stop returns `true`. -/
theorem spec_trace_return_conditions :
    ∀ (reply : List Char) (multi vcont : Bool) (cur : Option Int),
      (gdb_trace_step reply multi vcont cur).result ≠ none →
      (((gdb_trace_step reply multi vcont cur).result = some false)
        ↔ ((gdb_recv_stop_pure reply).type = GdbStop.error
           ∨ (((gdb_recv_stop_pure reply).type = GdbStop.exited
               ∨ (gdb_recv_stop_pure reply).type = GdbStop.terminated)
              ∧ multi = false)))
      ∧ (((gdb_recv_stop_pure reply).type = GdbStop.exited
          ∨ (gdb_recv_stop_pure reply).type = GdbStop.terminated) →
          (gdb_trace_step reply multi vcont cur).printedExit = true
          ∧ (gdb_trace_step reply multi vcont cur).dropped = true) := by
  intro reply multi vcont cur hnf
  unfold gdb_trace_step at hnf ⊢
  simp only [] at hnf ⊢
  by_cases h0 : reply.length = 0
  · rw [if_pos h0] at hnf
    simp at hnf
  · rw [if_neg h0] at hnf ⊢
    by_cases h1 : (gdb_recv_stop_pure reply).type = GdbStop.unknown
    · rw [if_pos h1] at hnf
      simp at hnf
    · rw [if_neg h1] at hnf ⊢
      by_cases h2 : (gdb_recv_stop_pure reply).type = GdbStop.error
      · rw [if_pos h2] at hnf ⊢
        refine ⟨iff_of_true rfl (Or.inl h2), ?_⟩
        intro hex
        rcases hex with hx | hx <;> (rw [hx] at h2; cases h2)
      · rw [if_neg h2] at hnf ⊢
        by_cases h3 : ((if multi then (gdb_recv_stop_pure reply).tid
              else cur.getD (-1)) < 0
            ∨ (if multi then decide (0 ≤ (gdb_recv_stop_pure reply).tid)
              else cur.isSome) = false)
        · rw [if_pos h3] at hnf
          simp at hnf
        · rw [if_neg h3] at hnf ⊢
          by_cases h4 : (((gdb_recv_stop_pure reply).type = GdbStop.exited
              ∨ (gdb_recv_stop_pure reply).type = GdbStop.terminated) ∧ multi = false)
          · rw [if_pos h4] at hnf ⊢
            exact ⟨iff_of_true rfl (Or.inr h4), fun _ => ⟨rfl, rfl⟩⟩
          · rw [if_neg h4] at hnf ⊢
            constructor
            · refine iff_of_false (by simp) ?_
              intro hrhs
              rcases hrhs with hx | hx
              · exact h2 hx
              · exact h4 hx
            · intro hex
              constructor <;>
                (show decide _ = true; exact decide_eq_true (Or.imp id id hex))

/-- Witness for C5 at an exit stop `W2a;process:7b` without multiprocess. -/
theorem spec_trace_return_conditions_witness :
    (((gdb_trace_step "W2a;process:7b".toList false true (some 123)).result
        = some false)
      ↔ ((gdb_recv_stop_pure "W2a;process:7b".toList).type = GdbStop.error
         ∨ (((gdb_recv_stop_pure "W2a;process:7b".toList).type = GdbStop.exited
             ∨ (gdb_recv_stop_pure "W2a;process:7b".toList).type = GdbStop.terminated)
            ∧ false = false)))
    ∧ (((gdb_recv_stop_pure "W2a;process:7b".toList).type = GdbStop.exited
        ∨ (gdb_recv_stop_pure "W2a;process:7b".toList).type = GdbStop.terminated) →
        (gdb_trace_step "W2a;process:7b".toList false true (some 123)).printedExit = true
        ∧ (gdb_trace_step "W2a;process:7b".toList false true (some 123)).dropped = true) :=
  spec_trace_return_conditions "W2a;process:7b".toList false true (some 123) (by decide)

/-! ### NoAck handshake (C8) -/

/-- C8: the `ack_enabled` effect of `gdb_start_noack` is exactly "reply was
`OK`" — but its boolean RESULT is constantly `true`, because the C function
executes `return ok ? "OK" : "";` and either string literal is a non-null
pointer.  The third conjunct evaluates the failing input: a refused
handshake still reports success. -/
theorem spec_start_noack_effect :
    (∀ reply : List Char,
      (gdb_start_noack true reply).2 = false ↔ reply = "OK".toList)
    ∧ (∀ (ack : Bool) (reply : List Char), (gdb_start_noack ack reply).1 = true)
    ∧ gdb_start_noack true "E01".toList = (true, true) := by
  refine ⟨?_, ?_, by decide⟩
  · intro reply
    by_cases h : reply = "OK".toList
    · subst h
      decide
    · have hok : ¬ (reply.length = 2 ∧ reply = "OK".toList) := fun hc => h hc.2
      simp only [gdb_start_noack]
      rw [if_neg hok]
      exact iff_of_false (by simp) h
  · intro ack reply
    by_cases h : reply.length = 2 ∧ reply = "OK".toList <;>
      simp [gdb_start_noack, h, strLiteralAsBool]

/-! ### `gdb_read_mem` (C9) -/

/-- C9 counterexample: an empty chunk reply makes `gdb_read_mem` fail with
`-1` (the code's `size < 2` test) although none of the claim's four failure
conditions holds: it does not start with `E`, its length is even and not
greater than `2 * len`, and it hex-decodes cleanly. -/
theorem spec_read_mem_counterexample :
    gdb_read_mem false 0 1 [[]] = some (-1, [], [(0, 1)])
    ∧ ¬ (([] : List Char).take 1 = ['E'])
    ∧ ([] : List Char).length % 2 = 0
    ∧ ¬ (1 * 2 < ([] : List Char).length)
    ∧ gdb_decode_hex_buf [] = some [] := by
  decide

/-- C9 (amended): each chunk request covers `min(len, 0x1000)` bytes; a
chunk reply fails with `-1` when it starts with `E`, has odd length or a
bad hex digit (`gdb_decode_hex_buf` refuses both), is longer than
`2 * len`, or — the amendment — is shorter than 2 bytes; a decoded chunk
containing NUL returns `1` under `check_nil`; otherwise the chunk is
decoded into the output and the loop advances, returning `0` at `len = 0`. -/
theorem spec_read_mem_step :
    (∀ (check_nil : Bool) (addr : Nat) (replies : List (List Char)),
      gdb_read_mem check_nil addr 0 replies = some (0, [], []))
    ∧ (∀ (check_nil : Bool) (addr len : Nat) (r : List Char) (rs : List (List Char)),
        0 < len →
        (r.length < 2 ∨ r.take 1 = ['E'] ∨ len * 2 < r.length
            ∨ gdb_decode_hex_buf r = none) →
        gdb_read_mem check_nil addr len (r :: rs)
          = some (-1, [], [(addr, min len 4096)]))
    ∧ (∀ (addr len : Nat) (r : List Char) (rs : List (List Char)) (bytes : List Nat),
        0 < len → gdb_decode_hex_buf r = some bytes →
        ¬ r.length < 2 → ¬ r.take 1 = ['E'] → ¬ len * 2 < r.length →
        bytes.contains 0 = true →
        gdb_read_mem true addr len (r :: rs) = some (1, bytes, [(addr, min len 4096)]))
    ∧ (∀ (check_nil : Bool) (addr len : Nat) (r : List Char) (rs : List (List Char))
          (bytes : List Nat),
        0 < len → gdb_decode_hex_buf r = some bytes →
        ¬ r.length < 2 → ¬ r.take 1 = ['E'] → ¬ len * 2 < r.length →
        (check_nil = true → bytes.contains 0 = false) →
        gdb_read_mem check_nil addr len (r :: rs)
          = (gdb_read_mem check_nil (addr + r.length / 2) (len - r.length / 2) rs).map
              (fun x => (x.1, bytes ++ x.2.1, (addr, min len 4096) :: x.2.2))) := by
  refine ⟨?_, ?_, ?_, ?_⟩
  · intro check_nil addr replies
    cases replies <;> rfl
  · intro check_nil addr len r rs hlen hfail
    cases len with
    | zero => omega
    | succ n =>
      conv_lhs => unfold gdb_read_mem
      simp only []
      cases hdec : gdb_decode_hex_buf r with
      | none => rfl
      | some bytes =>
        simp only []
        rw [if_pos (by
          rcases hfail with h | h | h | h
          · exact Or.inl h
          · exact Or.inr (Or.inl h)
          · exact Or.inr (Or.inr h)
          · rw [hdec] at h; cases h)]
  · intro addr len r rs bytes hlen hdec h2 hE hover hnul
    cases len with
    | zero => omega
    | succ n =>
      conv_lhs => unfold gdb_read_mem
      simp only []
      rw [hdec]
      simp only []
      rw [if_neg (by
        push_neg
        exact ⟨by omega, hE, by omega⟩), if_pos ⟨trivial, hnul⟩]
  · intro check_nil addr len r rs bytes hlen hdec h2 hE hover hnonul
    cases len with
    | zero => omega
    | succ n =>
      conv_lhs => unfold gdb_read_mem
      simp only []
      rw [hdec]
      simp only []
      rw [if_neg (by
        push_neg
        exact ⟨by omega, hE, by omega⟩), if_neg (by
        rintro ⟨hc, hcon⟩
        rw [hnonul hc] at hcon
        cases hcon)]
      cases hrec : gdb_read_mem check_nil (addr + r.length / 2) (Nat.succ n - r.length / 2) rs with
      | none => rfl
      | some x =>
        obtain ⟨res, out, reqs⟩ := x
        rfl

/-- Witness for C9's amended theorem: `len = 0` returns `0`; an empty
chunk reply (length `0 < 2`) fails with `-1`. -/
theorem spec_read_mem_step_witness :
    gdb_read_mem false 0 0 [] = some (0, [], [])
    ∧ gdb_read_mem false 0 1 [[]] = some (-1, [], [(0, min 1 4096)]) :=
  ⟨spec_read_mem_step.1 false 0 [],
   spec_read_mem_step.2.1 false 0 1 [] [] (by decide) (Or.inl (by decide))⟩

/-! ### RLE expansion in `recv_packet` (C7) -/

/-- C7 counterexample: the ingress bytes `$A*\x23#6b` do NOT decode to
`AAAAAAA`.  The count byte `\x23` IS `'#'` (35), which `recv_packet`
rejects as a count character; the `'*'` is emitted literally and the `'#'`
then terminates the packet, so the payload is the 2-byte `A*`. -/
theorem spec_rle_counterexample :
    recv_packet [36, 65, 42, 35, 54, 98] = some ([65, 42], true, [])
    ∧ ([65, 42] : List Nat) ≠ [65, 65, 65, 65, 65, 65, 65] := by
  decide

/-- C7 (amended): a `*` with a nonempty payload, followed by a count byte
`c` in `[29, 126]` excluding `$` and `#`, appends `c - 29` copies of the last payload
byte; an out-of-range count byte is pushed back and the `*` becomes a
literal payload byte.  `A*\x22` decodes to the 6-byte `AAAAAA`, while
`A*\x23` ends the packet after the literal `A*`. -/
theorem spec_rle_expansion :
    (∀ (rest acc : List Nat) (sum : Nat) (esc : Bool) (c2 : Nat),
      acc ≠ [] → 29 ≤ c2 → c2 ≤ 126 → c2 ≠ 36 → c2 ≠ 35 →
      recvLoop (42 :: c2 :: rest) acc sum esc
        = recvLoop rest (acc ++ List.replicate (c2 - 29) (acc.getLastD 0))
            ((sum + 42 + c2) % 256) esc)
    ∧ (∀ (rest acc : List Nat) (sum : Nat) (c2 : Nat),
      acc ≠ [] → (c2 < 29 ∨ 126 < c2 ∨ c2 = 36 ∨ c2 = 35) →
      recvLoop (42 :: c2 :: rest) acc sum false
        = recvLoop (c2 :: rest) (acc ++ [42]) ((sum + 42) % 256) false)
    ∧ recv_packet [36, 65, 42, 34, 35, 56, 100]
        = some ([65, 65, 65, 65, 65, 65], true, [])
    ∧ recv_packet [36, 65, 42, 35, 54, 98] = some ([65, 42], true, []) := by
  refine ⟨?_, ?_, by decide, by decide⟩
  · intro rest acc sum esc c2 hacc h29 h126 h36 h35
    conv_lhs => unfold recvLoop
    rw [if_neg (by norm_num), if_neg (by norm_num), if_neg (by norm_num),
      if_neg (by norm_num), if_pos ⟨rfl, hacc⟩]
    simp only []
    rw [if_neg (by omega)]
  · intro rest acc sum c2 hacc hbad
    conv_lhs => unfold recvLoop
    rw [if_neg (by norm_num), if_neg (by norm_num), if_neg (by norm_num),
      if_neg (by norm_num), if_pos ⟨rfl, hacc⟩]
    simp only []
    rw [if_pos hbad]
    norm_num

/-- Witness for C7's amended theorem: one RLE step on payload `A` with
count byte `\x22`, and one rejected count byte `\x23`. -/
theorem spec_rle_expansion_witness :
    recvLoop [42, 34, 35, 56, 100] [65] 65 false
      = recvLoop [35, 56, 100] ([65] ++ List.replicate (34 - 29) ([65].getLastD 0))
          ((65 + 42 + 34) % 256) false
    ∧ recvLoop [42, 35, 54, 98] [65] 65 false
      = recvLoop [35, 54, 98] ([65] ++ [42]) ((65 + 42) % 256) false := by
  constructor
  · have h := spec_rle_expansion.1 [35, 56, 100] [65] 65 false 34
      (by decide) (by decide) (by decide) (by decide) (by decide)
    exact h
  · exact spec_rle_expansion.2.1 [54, 98] [65] 65 35 (by decide) (by decide)

/-! ### Signal mapping (C6) -/

/-- C6: `gdb_map_signal` computes exactly the mapping rule of the spec:
`0 ↦ 0`, `REALTIME_32 ↦ 32`, the two contiguous realtime ranges, then
name-based identity, then the first host index in `[1, nsignals)` with a
matching name, then the no-mapping sentinel `-1`. -/
theorem spec_signal_map_rule :
    ∀ (names : Nat → Option (List Char)) (signame : Nat → List Char)
      (nsignals g : Nat),
      gdb_map_signal names signame nsignals g
        = rsp_to_host_spec names signame nsignals g := by
  intro names signame nsignals g
  unfold gdb_map_signal rsp_to_host_spec
  simp only [GDB_SIGNAL_0]
  by_cases h1 : g = 0
  · rw [if_pos h1, if_pos h1]
  · rw [if_neg h1, if_neg h1]
    by_cases h2 : g = GDB_SIGNAL_REALTIME_32
    · rw [if_pos h2, if_pos h2]
    · rw [if_neg h2, if_neg h2]
      by_cases h3 : GDB_SIGNAL_REALTIME_33 ≤ g ∧ g ≤ GDB_SIGNAL_REALTIME_63
      · rw [if_pos h3, if_pos h3]
      · rw [if_neg h3, if_neg h3]
        by_cases h4 : GDB_SIGNAL_REALTIME_64 ≤ g ∧ g ≤ GDB_SIGNAL_REALTIME_127
        · rw [if_pos h4, if_pos h4]
        · rw [if_neg h4, if_neg h4]
          cases hn : names g with
          | none =>
            simp only []
            rw [if_neg (by rintro ⟨-, heq⟩; cases heq)]
            rw [show (List.range' 1 (nsignals - 1)).find?
                  (fun sig => decide ((none : Option (List Char)) = some (signame sig)))
                  = none from
                List.find?_eq_none.mpr (fun x _ => by simp)]
          | some gname =>
            simp only []
            by_cases hid : g < nsignals ∧ gname = signame g
            · rw [if_pos hid, if_pos ⟨hid.1, congrArg some hid.2⟩]
            · rw [if_neg hid, if_neg (by
                rintro ⟨hlt, heq⟩
                exact hid ⟨hlt, Option.some.inj heq⟩)]
              rw [find?_congr_pred (fun sig => decide (sig ≠ g ∧ gname = signame sig))
                (fun sig => decide (some gname = some (signame sig)))
                (List.range' 1 (nsignals - 1)) (by
                intro sig hsig
                have hrange := List.mem_range'_1.mp hsig
                simp only [decide_eq_decide, Option.some.injEq]
                by_cases hsg : sig = g
                · subst hsg
                  constructor
                  · rintro ⟨hne, -⟩; exact absurd rfl hne
                  · intro hname
                    exact absurd ⟨by omega, hname⟩ hid
                · constructor
                  · rintro ⟨-, hname⟩; exact hname
                  · intro hname; exact ⟨hsg, hname⟩)]

end Gdb
